import Mathlib

/-!
Shallow embedding of `log_analyzer.py` (nginx log report generator).

Modelling conventions:
* Python floats are modelled as exact rationals (`ℚ`); all concrete values used
  in the theorems below are small dyadic/decimal numbers on which Python's
  binary64 arithmetic is exact, and the default error threshold `0.2` is
  modelled as the exact rational `1/5`.
* A Python exception escaping a function is modelled by `Except PyError`;
  the constructors name the Python exception class that is raised.
* `os.listdir` results are modelled as the directory's listing, a `List String`;
  the `os.path.isdir` guard (which calls `sys.exit`) is outside the modelled
  contract, and `os.path.abspath (os.path.join d f)` is modelled as `d ++ "/" ++ f`.
* `round(x, 5)` is Python's round-half-to-even at 5 decimal digits, modelled
  exactly on `ℚ` by `round5`.
-/

/-- Python exceptions that the modelled code can raise. -/
inductive PyError where
  /-- `AttributeError`: calling `.groups()` on the `None` returned by a failed
  `re` search (line 77 of the source). -/
  | attributeError
  /-- `UnboundLocalError`: reading a local variable whose only assignment was
  skipped by an exception (`parsed_date` at line 85, `url` at line 114). -/
  | unboundLocal
  /-- `ValueError`: the explicit `raise` at line 142, and `float()` on a
  non-numeric string at line 113. -/
  | valueError
  /-- `ZeroDivisionError`: `0.0 / 0.0` at line 141 and the divisions at
  lines 159-160 when their denominator is zero. -/
  | zeroDivisionError
deriving DecidableEq, Repr

/-- Round-half-to-even to an integer, Python's `round` on an exact value. -/
def roundHalfEvenZ (q : ℚ) : ℤ :=
  let f : ℤ := ⌊q⌋
  if q - f < 1/2 then f
  else if q - f > 1/2 then f + 1
  else if f % 2 = 0 then f else f + 1

/-- Python's `round(x, 5)` on an exact rational value. -/
def round5 (q : ℚ) : ℚ :=
  (roundHalfEvenZ (q * 100000) : ℚ) / 100000

/-- A calendar date as produced by `datetime.datetime.strptime(s, "%Y%m%d")`
(the time-of-day part is always midnight and is omitted). -/
structure Date where
  year : ℕ
  month : ℕ
  day : ℕ
deriving DecidableEq, Repr

/-- Strict ordering of dates, as `datetime` objects compare in Python. -/
def dateLt (a b : Date) : Prop :=
  a.year < b.year ∨ (a.year = b.year ∧
    (a.month < b.month ∨ (a.month = b.month ∧ a.day < b.day)))

instance (a b : Date) : Decidable (dateLt a b) := by unfold dateLt; infer_instance

/-- Gregorian leap-year rule used by `datetime`. -/
def isLeap (y : ℕ) : Bool :=
  y % 4 = 0 && (y % 100 ≠ 0 || y % 400 = 0)

/-- Number of days in a month, per `datetime`'s calendar. -/
def daysInMonth (y m : ℕ) : ℕ :=
  if m = 2 then (if isLeap y then 29 else 28)
  else if m = 4 ∨ m = 6 ∨ m = 9 ∨ m = 11 then 30
  else 31

/-- Numeric value of a list of decimal digit characters. -/
def digitsVal (cs : List Char) : ℕ :=
  cs.foldl (fun acc c => 10 * acc + (c.toNat - '0'.toNat)) 0

/-- `datetime.datetime.strptime(s, "%Y%m%d")`: parse an 8-digit string as a
date; `none` models the `ValueError` raised on a malformed or non-calendar
date (month outside 1..12, day outside the month, or year 0). -/
def strptimeYmd (s : String) : Option Date :=
  let cs := s.data
  if cs.length = 8 ∧ cs.all Char.isDigit then
    let y := digitsVal (cs.take 4)
    let m := digitsVal ((cs.drop 4).take 2)
    let d := digitsVal (cs.drop 6)
    if 1 ≤ y ∧ 1 ≤ m ∧ m ≤ 12 ∧ 1 ≤ d ∧ d ≤ daysInMonth y m then
      some ⟨y, m, d⟩
    else none
  else none

/-- Strip an expected literal prefix from a character list. -/
def chompLit : List Char → List Char → Option (List Char)
  | [], s => some s
  | _ :: _, [] => none
  | l :: ls, c :: s => if c = l then chompLit ls s else none

/-- One character of the pattern's unescaped `.` (any character but a newline),
followed by the expected tail. -/
def anyCharThen (rest : List Char) : Option (List Char) :=
  match rest with
  | [] => none
  | c :: r => if c = '\n' then none else some r

/-- Does the remainder of the filename consist of the extension literal,
optionally followed by a trailing newline (Python's `$`)? -/
def extEnd (rest : List Char) (ext : String) : Bool :=
  rest = ext.data ∨ rest = ext.data ++ ['\n']

/-- `LOG_FILENAME_PATTERN.search(file)`, the anchored pattern
`^nginx-access-ui.log-(\d{8}).(gz|log)$` (both `.` are unescaped, so they match
any character).  Returns the two captured groups `(date, extension)` on a
match.  The pattern is fully deterministic, so it is modelled directly. -/
def filenameMatch (file : String) : Option (String × String) :=
  match chompLit "nginx-access-ui".data file.data with
  | none => none
  | some r1 =>
    match anyCharThen r1 with
    | none => none
    | some r2 =>
      match chompLit "log-".data r2 with
      | none => none
      | some r3 =>
        let date := r3.take 8
        if date.length = 8 ∧ date.all Char.isDigit then
          match anyCharThen (r3.drop 8) with
          | none => none
          | some r4 =>
            if extEnd r4 "gz" then some (String.mk date, "gz")
            else if extEnd r4 "log" then some (String.mk date, "log")
            else none
        else none

/-- The `LogFile` named tuple. -/
structure LogFile where
  path : String
  date : Date
  extension : String
deriving DecidableEq, Repr

/-- `find_most_recent_log(directory)` over the directory listing.

The source's `for` loop ends with `return recent_log_ntuple` *inside* the loop
body, so the body of the loop runs for at most the first listing entry:
* an empty listing falls through the loop and returns `None`;
* a first entry that does not match `LOG_FILENAME_PATTERN` makes
  `search.groups()` raise `AttributeError` (`search` is `None`);
* a first entry whose date is not a calendar date leaves `parsed_date`
  unassigned (the `except` only prints), and the subsequent
  `most_recent_date = parsed_date` raises `UnboundLocalError`
  (on the first iteration `most_recent_date is None` short-circuits the `or`);
* otherwise the entry itself is returned, whatever the rest of the listing
  holds. -/
def find_most_recent_log (directory : String) (listing : List String) :
    Except PyError (Option LogFile) :=
  match listing with
  | [] => .ok none
  | file :: _ =>
    match filenameMatch file with
    | none => .error .attributeError
    | some (dateStr, ext) =>
      match strptimeYmd dateStr with
      | none => .error .unboundLocal
      | some d => .ok (some ⟨directory ++ "/" ++ file, d, ext⟩)

/-! ### The line-format regular expression

`LOG_FORMAT_PATTERN` is `^.+\[.+\] \"(.+)\" \d{3}.+ (\d+.\d+)` (the last `.`
is unescaped).  Because of the `^` anchor, `search` tries position 0 only.
It is modelled by a small backtracking matcher that is faithful to Python's
leftmost, greedy-with-backtracking semantics for this pattern: every atom of
the pattern is a single-character class, possibly under a greedy `+`, and the
two capture groups record the characters they consume. -/

/-- A single-character atom of the pattern. -/
inductive Atom where
  | dot        -- `.` : any character except a newline
  | digit      -- `\d`
  | lit (c : Char)
deriving DecidableEq, Repr

/-- Whether an atom accepts a character. -/
def Atom.accepts : Atom → Char → Bool
  | .dot, c => c ≠ '\n'
  | .digit, c => c.isDigit
  | .lit a, c => c = a

/-- A token of the compiled pattern: one atom, a greedy `a*` tail (used only
right after `one a` to form a greedy `a+`), or a capture-group boundary. -/
inductive Tok where
  | one (a : Atom)
  | star (a : Atom)
  | gopen
  | gclose
deriving DecidableEq, Repr

/-- Capture state: finished groups, and the (reversed) characters of the
currently open group, if any. -/
structure GState where
  done : List String
  cur : Option (List Char)
deriving DecidableEq, Repr

/-- Record a consumed character into the open capture group, if one is open. -/
def GState.push (g : GState) (c : Char) : GState :=
  ⟨g.done, g.cur.map (c :: ·)⟩

/-- The backtracking matcher.  `star` prefers consuming (greedy) and falls back
to the continuation, which is exactly Python's backtracking order, so the first
success found is the match Python reports.  `fuel` only forces structural
termination; each call site decreases `(chars, tokens)` lexicographically, so
the fuel supplied by `searchLogFormat` below is never exhausted. -/
def mrun : ℕ → List Tok → List Char → GState → Option GState
  | 0, _, _, _ => none
  | _ + 1, [], _, g => some g
  | _ + 1, .one _ :: _, [], _ => none
  | fuel + 1, .one a :: ts, c :: s, g =>
    if a.accepts c then mrun fuel ts s (g.push c) else none
  | fuel + 1, .star _ :: ts, [], g => mrun fuel ts [] g
  | fuel + 1, .star a :: ts, c :: s, g =>
    match (if a.accepts c then mrun fuel (.star a :: ts) s (g.push c) else none) with
    | some g2 => some g2
    | none => mrun fuel ts (c :: s) g
  | fuel + 1, .gopen :: ts, s, g => mrun fuel ts s ⟨g.done, some []⟩
  | fuel + 1, .gclose :: ts, s, g =>
    match g.cur with
    | some b => mrun fuel ts s ⟨g.done ++ [String.mk b.reverse], none⟩
    | none => none

/-- Greedy `a+`, compiled as `a` then greedy `a*`. -/
def plus1 (a : Atom) : List Tok :=
  [.one a, .star a]

/-- The compiled `LOG_FORMAT_PATTERN`. -/
def logFormatToks : List Tok :=
  plus1 .dot ++ [.one (.lit '[')] ++ plus1 .dot ++
    [.one (.lit ']'), .one (.lit ' '), .one (.lit '"'), .gopen] ++ plus1 .dot ++
    [.gclose, .one (.lit '"'), .one (.lit ' '),
     .one .digit, .one .digit, .one .digit] ++ plus1 .dot ++
    [.one (.lit ' '), .gopen] ++ plus1 .digit ++ [.one .dot] ++
    plus1 .digit ++ [.gclose]

/-- `LOG_FORMAT_PATTERN.search(line)`: `none` on no match, otherwise the two
captured groups (the quoted request and the trailing duration). -/
def searchLogFormat (line : String) : Option (String × String) :=
  let s := line.data
  match mrun ((s.length + 1) * (logFormatToks.length + 1) + 1) logFormatToks s ⟨[], none⟩ with
  | none => none
  | some g =>
    match g.done with
    | [g1, g2] => some (g1, g2)
    | _ => none

/-! ### `str.split()` and `float()` -/

/-- Accumulating helper for whitespace splitting. -/
def splitWsAux : List Char → List Char → List (List Char)
  | [], acc => if acc = [] then [] else [acc.reverse]
  | c :: rest, acc =>
    if c.isWhitespace then
      if acc = [] then splitWsAux rest []
      else acc.reverse :: splitWsAux rest []
    else splitWsAux rest (c :: acc)

/-- Python's `str.split()` with no argument: split on runs of whitespace,
discarding empty pieces. -/
def pySplit (s : String) : List String :=
  (splitWsAux s.data []).map String.mk

/-- Tail of a digit run that may contain single underscores between digits. -/
def okTail : List Char → Bool
  | [] => true
  | '_' :: rest =>
    match rest with
    | c :: r2 => c.isDigit && okTail r2
    | [] => false
  | c :: rest => c.isDigit && okTail rest

/-- A nonempty digit run, allowing single underscores between digits, as
Python's numeric literals do. -/
def okRun (cs : List Char) : Bool :=
  match cs with
  | [] => false
  | c :: rest => c.isDigit && okTail rest

/-- Characters belonging to a digit run. -/
def isRunChar (c : Char) : Bool :=
  c.isDigit || c = '_'

/-- Value of a digit run with its underscores removed. -/
def runVal (cs : List Char) : ℕ :=
  digitsVal (cs.filter (fun c => c ≠ '_'))

/-- Python's `float(s)` on the finite-literal grammar
`[sign] (digits [. [digits]] | . digits) [e [sign] digits]`; `none` models the
`ValueError` raised on anything else.  (`inf`/`nan` and surrounding whitespace
cannot occur in the strings this program passes to `float` and are omitted.) -/
def pyFloat (s : String) : Option ℚ :=
  let cs := s.data
  let (sgn, cs) : ℚ × List Char :=
    match cs with
    | '-' :: r => (-1, r)
    | '+' :: r => (1, r)
    | _ => (1, cs)
  let intRun := cs.takeWhile isRunChar
  let rest1 := cs.dropWhile isRunChar
  let (mant, rest2) : Option ℚ × List Char :=
    match rest1 with
    | '.' :: r =>
      let fracRun := r.takeWhile isRunChar
      let r2 := r.dropWhile isRunChar
      if intRun = [] then
        -- `.digits` form: the fractional run must be present
        if okRun fracRun then
          (some ((runVal fracRun : ℚ) / (10 : ℚ) ^ (fracRun.filter (fun c => c ≠ '_')).length), r2)
        else (none, r2)
      else if okRun intRun then
        if fracRun = [] then (some (runVal intRun : ℚ), r2)
        else if okRun fracRun then
          (some ((runVal intRun : ℚ) +
            (runVal fracRun : ℚ) / (10 : ℚ) ^ (fracRun.filter (fun c => c ≠ '_')).length), r2)
        else (none, r2)
      else (none, r2)
    | _ =>
      if okRun intRun then (some (runVal intRun : ℚ), rest1) else (none, rest1)
  match mant with
  | none => none
  | some m =>
    match rest2 with
    | [] => some (sgn * m)
    | e :: r =>
      if e = 'e' ∨ e = 'E' then
        let (esgn, r) : Bool × List Char :=
          match r with
          | '-' :: r2 => (true, r2)
          | '+' :: r2 => (false, r2)
          | _ => (false, r)
        if okRun r ∧ r.dropWhile isRunChar = [] then
          let ev := runVal (r.takeWhile isRunChar)
          some (sgn * m * (if esgn then 1 / (10 : ℚ) ^ ev else (10 : ℚ) ^ ev))
        else none
      else none

/-! ### `parse_log` -/

/-- The `LogLine` named tuple. -/
structure LogLine where
  url : String
  time : ℚ
deriving DecidableEq, Repr

/-- One iteration of `parse_log`'s loop on a decoded line.

`st` carries the value of the local variable `url`, which in CPython survives
from one loop iteration to the next: after `method, url, protocol =
search.group(1).split()` fails to unpack (its `except` clause only prints),
the subsequent `yield LogLine(url, request_time)` reads the *previous*
iteration's `url` — or raises `UnboundLocalError` when no previous iteration
ever bound it.  Returns the yielded value (`none` models `yield None`) and the
updated `url` binding. -/
def parse_line (st : Option String) (line : String) :
    Except PyError (Option LogLine × Option String) :=
  match searchLogFormat line with
  | none => .ok (none, st)
  | some (g1, g2) =>
    match pySplit g1 with
    | [_, u, _] =>
      match pyFloat g2 with
      | none => .error .valueError
      | some t => .ok (some ⟨u, t⟩, some u)
    | _ =>
      -- unpacking raised `ValueError`; it was caught and only printed
      match pyFloat g2 with
      | none => .error .valueError
      | some t =>
        match st with
        | none => .error .unboundLocal
        | some u => .ok (some ⟨u, t⟩, st)

/-- `parse_log` over the decoded lines of the file: the list of yielded values,
or the first exception to escape the generator. -/
def parseLines (st : Option String) : List String → Except PyError (List (Option LogLine))
  | [] => .ok []
  | l :: ls =>
    match parse_line st l with
    | .error e => .error e
    | .ok (res, st2) =>
      match parseLines st2 ls with
      | .error e => .error e
      | .ok rest => .ok (res :: rest)

/-! ### `count_url` -/

/-- Python-dict update `requests_by_url[url].append(time)` on an
insertion-ordered association list (`defaultdict(list)` appends an empty list
for a fresh key, at the end). -/
def addUrl : List (String × List ℚ) → String → ℚ → List (String × List ℚ)
  | [], u, t => [(u, [t])]
  | (k, ts) :: rest, u, t =>
    if k = u then (k, ts ++ [t]) :: rest
    else (k, ts) :: addUrl rest u t

/-- The local state of `count_url`'s loop.  The line counters are Python
floats `0.0` incremented by `1`; they stay integral, so they are modelled
as naturals. -/
structure CountState where
  parsed : ℕ
  invalid : ℕ
  total : ℚ
  m : List (String × List ℚ)
deriving DecidableEq, Repr

/-- One iteration of `count_url`'s loop on a value yielded by `parse_log`. -/
def countStep (st : CountState) (line : Option LogLine) : CountState :=
  match line with
  | none => { st with invalid := st.invalid + 1 }
  | some l =>
    { st with
      parsed := st.parsed + 1
      total := st.total + l.time
      m := addUrl st.m l.url l.time }

/-- The state after `count_url`'s loop has consumed the whole stream. -/
def countAgg (stream : List (Option LogLine)) : CountState :=
  stream.foldl countStep ⟨0, 0, 0, []⟩

/-- The post-loop check of `count_url`:
`invalid_lines / (invalid_lines + parsed_lines)` raises `ZeroDivisionError`
when no line was consumed (`0.0 / 0.0`), and the explicit `raise ValueError`
fires when the ratio strictly exceeds the threshold. -/
def countCheck (st : CountState) (error_threshold : ℚ) :
    Except PyError (List (String × List ℚ) × ℚ) :=
  if st.invalid + st.parsed = 0 then .error .zeroDivisionError
  else if (st.invalid : ℚ) / ((st.invalid : ℚ) + (st.parsed : ℚ)) > error_threshold then
    .error .valueError
  else .ok (st.m, st.total)

/-- `count_url`, taking the stream of values yielded by `parse_log`: run the
counting loop over the whole stream, then apply the error-budget check. -/
def count_url (stream : List (Option LogLine)) (error_threshold : ℚ) :
    Except PyError (List (String × List ℚ) × ℚ) :=
  countCheck (countAgg stream) error_threshold

/-- Number of successfully parsed lines in a stream. -/
def parsedOf : List (Option LogLine) → ℕ
  | [] => 0
  | none :: rest => parsedOf rest
  | some _ :: rest => parsedOf rest + 1

/-- Number of unparsed lines in a stream. -/
def unparsedOf : List (Option LogLine) → ℕ
  | [] => 0
  | none :: rest => unparsedOf rest + 1
  | some _ :: rest => unparsedOf rest

/-- Sum of the durations of all parsed lines in a stream. -/
def streamTime : List (Option LogLine) → ℚ
  | [] => 0
  | none :: rest => streamTime rest
  | some l :: rest => l.time + streamTime rest

/-- Total number of recorded durations across all URLs of the map. -/
def sumLens : List (String × List ℚ) → ℕ
  | [] => 0
  | e :: rest => e.2.length + sumLens rest

/-- Sum of all recorded durations across all URLs of the map. -/
def sumDur : List (String × List ℚ) → ℚ
  | [] => 0
  | e :: rest => e.2.sum + sumDur rest

/-! ### `count_url_stats` -/

/-- The `LogStats` named tuple. -/
structure LogStats where
  url : String
  count : ℕ
  count_perc : ℚ
  time_sum : ℚ
  time_perc : ℚ
  time_avg : ℚ
  time_max : ℚ
  time_med : ℚ
deriving DecidableEq, Repr

/-- Python's `sorted` on a list of durations. -/
def sortQ (ds : List ℚ) : List ℚ :=
  ds.insertionSort (· ≤ ·)

/-- `l[-1]` with a default for the (unreachable) empty case. -/
def lastD (d : ℚ) : List ℚ → ℚ
  | [] => d
  | [a] => a
  | _ :: b :: rest => lastD d (b :: rest)

/-- `statistics.median`: sort, then take the middle element (odd length) or
the mean of the two middle elements (even length). -/
def medianAlg (ds : List ℚ) : ℚ :=
  let s := sortQ ds
  let n := s.length
  if n % 2 = 1 then s.getD (n / 2) 0
  else (s.getD (n / 2 - 1) 0 + s.getD (n / 2) 0) / 2

/-- The body of `count_url_stats`'s loop for one URL.  `nUrls` is
`len(requests_by_url)`.  The guards model the `ZeroDivisionError`s of the
divisions, in the order the source performs them (`count_perc`, `time_sum`,
`time_perc`, `time_avg`); `time_max` is `sorted(...)[-1]` and `time_med` is
`statistics.median`, both reached only when the list is nonempty. -/
def statFor (nUrls : ℕ) (total : ℚ) (url : String) (ds : List ℚ) :
    Except PyError LogStats :=
  if nUrls = 0 then .error .zeroDivisionError
  else
    let count := ds.length
    let count_perc := round5 ((100 * count : ℚ) / (nUrls : ℚ))
    let time_sum := round5 ds.sum
    if total = 0 then .error .zeroDivisionError
    else
      let time_perc := round5 (100 * time_sum / total)
      if count = 0 then .error .zeroDivisionError
      else
        let time_avg := round5 (time_sum / (count : ℚ))
        let time_max := lastD 0 (sortQ ds)
        let time_med := round5 (medianAlg ds)
        .ok ⟨url, count, count_perc, time_sum, time_perc, time_avg, time_max, time_med⟩

/-- The loop of `count_url_stats`: build one `LogStats` per entry, in order,
stopping at the first exception. -/
def mapE (f : String × List ℚ → Except PyError LogStats) :
    List (String × List ℚ) → Except PyError (List LogStats)
  | [] => .ok []
  | e :: rest =>
    match f e with
    | .error err => .error err
    | .ok s =>
      match mapE f rest with
      | .error err => .error err
      | .ok ss => .ok (s :: ss)

/-- The ordering used by `sorted(url_stats, key=attrgetter("time_sum"),
reverse=True)`: descending `time_sum`, stable on ties. -/
def statGE (a b : LogStats) : Prop :=
  b.time_sum ≤ a.time_sum

instance : DecidableRel statGE :=
  fun a b => inferInstanceAs (Decidable (b.time_sum ≤ a.time_sum))

instance : IsTotal LogStats statGE :=
  ⟨fun a b => le_total b.time_sum a.time_sum⟩

instance : IsTrans LogStats statGE :=
  ⟨fun _ _ _ hab hbc => le_trans hbc hab⟩

/-- `count_url_stats(requests_by_url, total_requests_time)`. -/
def count_url_stats (m : List (String × List ℚ)) (total : ℚ) :
    Except PyError (List LogStats) :=
  match mapE (fun e => statFor m.length total e.1 e.2) m with
  | .error e => .error e
  | .ok stats => .ok (stats.insertionSort statGE)

/-! ### `write_report`

`write_report` is modelled as the sequence of file-system operations it
performs, run over a state that separates durable content (`disk`) from data
sitting in a still-open buffered handle (`buf`): CPython's buffered writers
deliver data to the file only on flush/close, and the report's rendered string
(a few kilobytes) is far below the 8 KiB buffer size, so nothing written
through an open handle is on disk before that handle is closed. -/

/-- A file-system operation.  `rename` is what an atomic replacement would
use (`os.rename` / `shutil.move`); it is part of the vocabulary so that its
absence from `write_report`'s trace is expressible. -/
inductive FSOp where
  /-- `tempfile.NamedTemporaryFile()`: create an empty file. -/
  | namedTemp (p : String)
  /-- `open(p, 'wb')`: truncate `p` to empty on disk and open a buffered handle. -/
  | openW (p : String)
  /-- `f.write(data)` on the buffered handle for `p`. -/
  | writeH (p : String) (data : String)
  /-- `shutil.copyfileobj(src_obj, dst_handle)`: read `src`'s durable content
  from its object's current position (here always position 0, since nothing was
  ever written *through* that object) and write it to `dst`'s buffered handle. -/
  | copyObj (src dst : String)
  /-- Close the handle for `p`, flushing its buffer to disk. -/
  | closeH (p : String)
  /-- `os.rename(src, dst)` — never emitted by `write_report`. -/
  | rename (src dst : String)
deriving DecidableEq, Repr

/-- Is the operation a rename? -/
def FSOp.isMove : FSOp → Bool
  | .rename _ _ => true
  | _ => false

/-- Durable contents plus per-handle unflushed buffers. -/
structure FSState where
  disk : List (String × String)
  buf : List (String × String)
deriving DecidableEq, Repr

/-- Store a binding in an association list. -/
def fsSet (m : List (String × String)) (k v : String) : List (String × String) :=
  match m with
  | [] => [(k, v)]
  | (k2, v2) :: rest => if k2 = k then (k, v) :: rest else (k2, v2) :: fsSet rest k v

/-- Look a binding up in an association list. -/
def fsGet (m : List (String × String)) (k : String) : Option String :=
  match m with
  | [] => none
  | (k2, v) :: rest => if k2 = k then some v else fsGet rest k

/-- Apply one operation to the file-system state. -/
def fsApply (st : FSState) : FSOp → FSState
  | .namedTemp p => { st with disk := fsSet st.disk p "" }
  | .openW p => { disk := fsSet st.disk p "", buf := fsSet st.buf p "" }
  | .writeH p data =>
    { st with buf := fsSet st.buf p ((fsGet st.buf p).getD "" ++ data) }
  | .copyObj src dst =>
    { st with
      buf := fsSet st.buf dst ((fsGet st.buf dst).getD "" ++ (fsGet st.disk src).getD "") }
  | .closeH p =>
    { disk := fsSet st.disk p ((fsGet st.disk p).getD "" ++ (fsGet st.buf p).getD "")
      buf := fsSet st.buf p "" }
  | .rename src dst =>
    { st with disk := fsSet (fsSet st.disk dst ((fsGet st.disk src).getD "")) src "" }

/-- Run a list of operations from a state. -/
def fsRun (st : FSState) : List FSOp → FSState
  | [] => st
  | op :: rest => fsRun (fsApply st op) rest

/-- The empty file system. -/
def fsEmpty : FSState := ⟨[], []⟩

/-- The exact operation sequence of `write_report(rendered_template,
report_path)`, with `tmp` the name of the `NamedTemporaryFile`:
create the temp file; open a *second* handle on its name; write the rendered
text through that handle (it stays in the handle's buffer); open the
destination `report_path` with truncation; copy the temp file's durable
content (still empty) into the destination handle; then the `with` blocks
unwind, closing the inner (destination) handle first and the outer handle
last. -/
def write_report_ops (rendered reportPath tmp : String) : List FSOp :=
  [.namedTemp tmp,
   .openW tmp,
   .writeH tmp rendered,
   .openW reportPath,
   .copyObj tmp reportPath,
   .closeH reportPath,
   .closeH tmp]

/-! ### Helper lemmas -/

theorem addUrl_sumLens (m : List (String × List ℚ)) (u : String) (t : ℚ) :
    sumLens (addUrl m u t) = sumLens m + 1 := by
  induction m with
  | nil => simp [addUrl, sumLens]
  | cons e rest ih =>
    obtain ⟨k, ts⟩ := e
    by_cases hk : k = u
    · simp [addUrl, hk, sumLens]
      omega
    · simp [addUrl, hk, sumLens, ih]
      omega

theorem addUrl_sumDur (m : List (String × List ℚ)) (u : String) (t : ℚ) :
    sumDur (addUrl m u t) = sumDur m + t := by
  induction m with
  | nil => simp [addUrl, sumDur]
  | cons e rest ih =>
    obtain ⟨k, ts⟩ := e
    by_cases hk : k = u
    · simp [addUrl, hk, sumDur]
      ring
    · simp [addUrl, hk, sumDur, ih]
      ring

theorem countFold (stream : List (Option LogLine)) : ∀ st : CountState,
    (stream.foldl countStep st).parsed = st.parsed + parsedOf stream ∧
    (stream.foldl countStep st).invalid = st.invalid + unparsedOf stream ∧
    (stream.foldl countStep st).total = st.total + streamTime stream ∧
    sumLens (stream.foldl countStep st).m = sumLens st.m + parsedOf stream ∧
    sumDur (stream.foldl countStep st).m = sumDur st.m + streamTime stream := by
  induction stream with
  | nil => intro st; simp [parsedOf, unparsedOf, streamTime]
  | cons o rest ih =>
    intro st
    obtain ⟨h1, h2, h3, h4, h5⟩ := ih (countStep st o)
    simp only [List.foldl_cons]
    cases o with
    | none =>
      simp only [countStep] at h1 h2 h3 h4 h5
      refine ⟨?_, ?_, ?_, ?_, ?_⟩ <;>
        simp only [countStep, parsedOf, unparsedOf, streamTime, h1, h2, h3, h4, h5] <;>
        omega
    | some line =>
      simp only [countStep] at h1 h2 h3 h4 h5
      simp only [addUrl_sumLens, addUrl_sumDur] at h4 h5
      refine ⟨?_, ?_, ?_, ?_, ?_⟩ <;>
        simp only [countStep, parsedOf, unparsedOf, streamTime, h1, h2, h3, h4, h5,
          add_assoc] <;>
        omega

theorem parsedOf_add_unparsedOf (stream : List (Option LogLine)) :
    parsedOf stream + unparsedOf stream = stream.length := by
  induction stream with
  | nil => simp [parsedOf, unparsedOf]
  | cons o rest ih =>
    cases o <;> simp [parsedOf, unparsedOf] <;> omega

theorem countAgg_parsed (stream : List (Option LogLine)) :
    (countAgg stream).parsed = parsedOf stream := by
  have h := (countFold stream ⟨0, 0, 0, []⟩).1
  simpa [countAgg] using h

theorem countAgg_invalid (stream : List (Option LogLine)) :
    (countAgg stream).invalid = unparsedOf stream := by
  have h := (countFold stream ⟨0, 0, 0, []⟩).2.1
  simpa [countAgg] using h

theorem countAgg_total (stream : List (Option LogLine)) :
    (countAgg stream).total = streamTime stream := by
  have h := (countFold stream ⟨0, 0, 0, []⟩).2.2.1
  simpa [countAgg] using h

theorem countAgg_sumLens (stream : List (Option LogLine)) :
    sumLens (countAgg stream).m = parsedOf stream := by
  have h := (countFold stream ⟨0, 0, 0, []⟩).2.2.2.1
  simpa [countAgg, sumLens] using h

theorem countAgg_sumDur (stream : List (Option LogLine)) :
    sumDur (countAgg stream).m = streamTime stream := by
  have h := (countFold stream ⟨0, 0, 0, []⟩).2.2.2.2
  simpa [countAgg, sumDur] using h

/-- On a nonempty stream the exhausted loop either trips the error budget or
returns the accumulated aggregates. -/
theorem count_url_char (stream : List (Option LogLine)) (th : ℚ) (hne : stream ≠ []) :
    count_url stream th =
      if (unparsedOf stream : ℚ) / ((unparsedOf stream : ℚ) + (parsedOf stream : ℚ)) > th
      then .error .valueError
      else .ok ((countAgg stream).m, (countAgg stream).total) := by
  unfold count_url countCheck
  have hlen : (countAgg stream).invalid + (countAgg stream).parsed ≠ 0 := by
    rw [countAgg_parsed, countAgg_invalid]
    have h1 := parsedOf_add_unparsedOf stream
    have h2 : stream.length ≠ 0 := by
      intro h0
      exact hne (List.length_eq_zero.mp h0)
    omega
  rw [if_neg hlen, countAgg_parsed, countAgg_invalid]

theorem count_url_ok {stream : List (Option LogLine)} {th : ℚ}
    {m : List (String × List ℚ)} {tot : ℚ}
    (h : count_url stream th = .ok (m, tot)) :
    m = (countAgg stream).m ∧ tot = (countAgg stream).total := by
  unfold count_url countCheck at h
  split at h
  · simp at h
  · split at h
    · simp at h
    · rw [Except.ok.injEq, Prod.mk.injEq] at h
      exact ⟨h.1.symm, h.2.symm⟩

theorem statFor_ok {n : ℕ} {total : ℚ} {u : String} {ds : List ℚ} {s : LogStats}
    (h : statFor n total u ds = .ok s) :
    ds ≠ [] ∧ s.url = u ∧ s.count = ds.length ∧
    s.count_perc = round5 ((100 * ds.length : ℚ) / (n : ℚ)) ∧
    s.time_sum = round5 ds.sum ∧
    s.time_perc = round5 (100 * s.time_sum / total) ∧
    s.time_avg = round5 (s.time_sum / (ds.length : ℚ)) ∧
    s.time_max = lastD 0 (sortQ ds) ∧
    s.time_med = round5 (medianAlg ds) := by
  unfold statFor at h
  simp only [] at h
  split at h
  · simp at h
  · split at h
    · simp at h
    · split at h
      · simp at h
      · next hn htot hcount =>
        rw [Except.ok.injEq] at h
        subst h
        refine ⟨?_, rfl, rfl, rfl, rfl, rfl, rfl, rfl, rfl⟩
        intro hnil
        exact hcount (by simp [hnil])

theorem mapE_ok {f : String × List ℚ → Except PyError LogStats} :
    ∀ {as : List (String × List ℚ)} {bs : List LogStats}, mapE f as = .ok bs →
      bs.length = as.length ∧ ∀ a ∈ as, ∃ b ∈ bs, f a = .ok b := by
  intro as
  induction as with
  | nil =>
    intro bs h
    simp only [mapE, Except.ok.injEq] at h
    subst h
    simp
  | cons e rest ih =>
    intro bs h
    unfold mapE at h
    cases hfe : f e with
    | error err => rw [hfe] at h; simp at h
    | ok s =>
      rw [hfe] at h
      cases hrest : mapE f rest with
      | error err => rw [hrest] at h; simp at h
      | ok ss =>
        rw [hrest, Except.ok.injEq] at h
        subst h
        obtain ⟨hlen, hmem⟩ := ih hrest
        refine ⟨by simp [hlen], ?_⟩
        intro a ha
        rcases List.mem_cons.mp ha with rfl | ha2
        · exact ⟨s, by simp, hfe⟩
        · obtain ⟨b, hb, hfb⟩ := hmem a ha2
          exact ⟨b, by simp [hb], hfb⟩

theorem lastD_mem (d : ℚ) : ∀ (l : List ℚ), l ≠ [] → lastD d l ∈ l := by
  intro l
  induction l with
  | nil => intro h; cases h rfl
  | cons a rest ih =>
    intro _
    cases rest with
    | nil => simp [lastD]
    | cons b r2 =>
      rw [show lastD d (a :: b :: r2) = lastD d (b :: r2) from rfl]
      exact List.mem_cons_of_mem a (ih (by simp))

theorem sorted_le_lastD (d : ℚ) : ∀ (l : List ℚ), l.Sorted (· ≤ ·) →
    ∀ x ∈ l, x ≤ lastD d l := by
  intro l
  induction l with
  | nil => intro _ x hx; cases hx
  | cons a rest ih =>
    intro hs x hx
    cases rest with
    | nil =>
      rw [List.mem_singleton] at hx
      subst hx
      simp [lastD]
    | cons b r2 =>
      rw [show lastD d (a :: b :: r2) = lastD d (b :: r2) from rfl]
      have hs2 : (b :: r2).Sorted (· ≤ ·) := hs.of_cons
      rcases List.mem_cons.mp hx with rfl | hx2
      · have hab : x ≤ b := (List.sorted_cons.mp hs).1 b (by simp)
        exact le_trans hab (ih hs2 b (by simp))
      · exact ih hs2 x hx2

/-- `sorted(ds)[-1]` is a maximum of a nonempty `ds`. -/
theorem lastD_sortQ_max {ds : List ℚ} (hne : ds ≠ []) :
    lastD 0 (sortQ ds) ∈ ds ∧ ∀ x ∈ ds, x ≤ lastD 0 (sortQ ds) := by
  have hsne : sortQ ds ≠ [] := by
    intro h0
    apply hne
    have hlen : (sortQ ds).length = ds.length :=
      (List.perm_insertionSort (· ≤ ·) ds).length_eq
    rw [h0] at hlen
    exact List.length_eq_zero.mp hlen.symm
  constructor
  · exact (List.mem_insertionSort (· ≤ ·)).mp (lastD_mem 0 (sortQ ds) hsne)
  · intro x hx
    exact sorted_le_lastD 0 (sortQ ds) (List.sorted_insertionSort (· ≤ ·) ds) x
      ((List.mem_insertionSort (· ≤ ·)).mpr hx)

/-! ### The claims -/

/-- Claim C1 (evaluation at a failing input): `find_most_recent_log` does not
return the candidate with the latest embedded date.  On the listing holding
matching files dated 2017-06-30 and 2017-07-01 (in that order) it returns the
2017-06-30 file, although the second entry also matches and its parsed date is
strictly later; and on a listing whose sole entry does not match the pattern it
raises `AttributeError` instead of reporting "no log found". -/
theorem find_most_recent_log_not_latest :
    find_most_recent_log "./log"
        ["nginx-access-ui.log-20170630.log", "nginx-access-ui.log-20170701.log"] =
      .ok (some ⟨"./log/nginx-access-ui.log-20170630.log", ⟨2017, 6, 30⟩, "log"⟩) ∧
    filenameMatch "nginx-access-ui.log-20170701.log" = some ("20170701", "log") ∧
    strptimeYmd "20170701" = some ⟨2017, 7, 1⟩ ∧
    dateLt ⟨2017, 6, 30⟩ ⟨2017, 7, 1⟩ ∧
    find_most_recent_log "./log" ["README.txt"] = .error .attributeError :=
  ⟨rfl, rfl, rfl, by decide, rfl⟩

/-- The stream used to instantiate claim C2: one unparsed line out of five,
exactly the default error threshold. -/
def c2Stream : List (Option LogLine) :=
  [none, some ⟨"/a", 1⟩, some ⟨"/b", 1⟩, some ⟨"/c", 1⟩, some ⟨"/d", 1⟩]

/-- Claim C2: once a nonempty stream is exhausted, `count_url` fails with the
error-budget `ValueError` exactly when `unparsed / (unparsed + parsed)`
strictly exceeds the threshold; at or below the threshold it returns the
accumulated aggregates (so an exactly-at-threshold stream succeeds, and a
failing run returns no aggregate at all, the `Except` being an error). -/
theorem count_url_error_budget (stream : List (Option LogLine)) (th : ℚ)
    (hne : stream ≠ []) :
    ((count_url stream th = .error .valueError) ↔
      (unparsedOf stream : ℚ) / ((unparsedOf stream : ℚ) + (parsedOf stream : ℚ)) > th) ∧
    ((unparsedOf stream : ℚ) / ((unparsedOf stream : ℚ) + (parsedOf stream : ℚ)) ≤ th →
      count_url stream th = .ok ((countAgg stream).m, (countAgg stream).total)) := by
  rw [count_url_char stream th hne]
  by_cases hgt :
    (unparsedOf stream : ℚ) / ((unparsedOf stream : ℚ) + (parsedOf stream : ℚ)) > th
  · rw [if_pos hgt]
    exact ⟨⟨fun _ => hgt, fun _ => rfl⟩, fun hle => absurd hgt (not_lt.mpr hle)⟩
  · rw [if_neg hgt]
    constructor
    · constructor
      · intro h; exact absurd h (by simp)
      · intro h; exact absurd h hgt
    · intro _; rfl

/-- Claim C2, witnessed at a stream with exactly the default threshold ratio
of unparsed lines (1 of 5 at threshold 1/5). -/
theorem count_url_error_budget_witness :
    ((count_url c2Stream (1/5) = .error .valueError) ↔
      (unparsedOf c2Stream : ℚ) / ((unparsedOf c2Stream : ℚ) + (parsedOf c2Stream : ℚ)) > 1/5) ∧
    ((unparsedOf c2Stream : ℚ) / ((unparsedOf c2Stream : ℚ) + (parsedOf c2Stream : ℚ)) ≤ 1/5 →
      count_url c2Stream (1/5) = .ok ((countAgg c2Stream).m, (countAgg c2Stream).total)) :=
  count_url_error_budget c2Stream (1/5) (by decide)

/-- Claim C3 (counterexample): the code rounds `count_perc` to 5 decimal
digits, so it is not the exact quotient the claim states.  With three URLs of
one hit each, every `count_perc` is `33.33333`, which differs from
`100 × 1 / 3`. -/
theorem count_perc_rounded_cex :
    (count_url_stats [("a", [1]), ("b", [1]), ("c", [1])] 3).map
        (List.map LogStats.count_perc) =
      .ok [3333333/100000, 3333333/100000, 3333333/100000] ∧
    (3333333 / 100000 : ℚ) ≠ 100 * 1 / 3 := by
  constructor
  · norm_num [count_url_stats, mapE, statFor, round5, roundHalfEvenZ, medianAlg, sortQ,
      List.insertionSort, List.orderedInsert, statGE, lastD, Except.map]
  · norm_num

/-- Claim C3 (amended: `count_perc` is the quotient rounded to 5 digits):
for every entry of a map on which `count_url_stats` succeeds, the output
contains one record per entry whose fields are: the hit count; the rounded
percentage of distinct URLs; `time_sum` the rounded duration sum; `time_avg`
the rounded quotient of the (already rounded) `time_sum` by the count;
`time_max` the unrounded maximum duration; `time_med` the rounded median. -/
theorem count_url_stats_fields (m : List (String × List ℚ)) (total : ℚ)
    (l : List LogStats) (h : count_url_stats m total = .ok l) :
    l.length = m.length ∧
    ∀ u ds, (u, ds) ∈ m → ∃ s, s ∈ l ∧ s.url = u ∧ s.count = ds.length ∧
      s.count_perc = round5 ((100 * ds.length : ℚ) / (m.length : ℚ)) ∧
      s.time_sum = round5 ds.sum ∧
      s.time_avg = round5 (s.time_sum / (ds.length : ℚ)) ∧
      (s.time_max ∈ ds ∧ ∀ x ∈ ds, x ≤ s.time_max) ∧
      s.time_med = round5 (medianAlg ds) := by
  cases hm : mapE (fun e => statFor m.length total e.1 e.2) m with
  | error e =>
    have h2 : count_url_stats m total = .error e := by
      unfold count_url_stats
      rw [hm]
    rw [h2] at h
    simp at h
  | ok stats =>
    have h2 : count_url_stats m total = .ok (stats.insertionSort statGE) := by
      unfold count_url_stats
      rw [hm]
    rw [h2, Except.ok.injEq] at h
    subst h
    obtain ⟨hlen, hmem⟩ := mapE_ok hm
    have hperm := List.perm_insertionSort statGE stats
    constructor
    · rw [hperm.length_eq, hlen]
    · intro u ds hin
      obtain ⟨s, hsin, hfs⟩ := hmem (u, ds) hin
      obtain ⟨hne, hurl, hcount, hcp, hts, _, hta, hmax, hmed⟩ := statFor_ok hfs
      refine ⟨s, hperm.mem_iff.mpr hsin, hurl, hcount, hcp, hts, hta, ?_, hmed⟩
      rw [hmax]
      exact lastD_sortQ_max hne

/-- Claim C3, witnessed at the claim's own instance: a URL with durations
`[1.0, 2.0, 3.0, 4.0]` yields `time_sum = 10.0`, `time_avg = 2.5`,
`time_max = 4.0`, `time_med = 2.5`. -/
theorem count_url_stats_fields_witness :
    count_url_stats [("u", [1, 2, 3, 4])] 10 =
      .ok [⟨"u", 4, 400, 10, 100, 5/2, 4, 5/2⟩] ∧
    ∃ s, s ∈ [(⟨"u", 4, 400, 10, 100, 5/2, 4, 5/2⟩ : LogStats)] ∧ s.url = "u" ∧
      s.count = ([1, 2, 3, 4] : List ℚ).length ∧
      s.count_perc = round5 ((100 * ([1, 2, 3, 4] : List ℚ).length : ℚ) /
        (([("u", ([1, 2, 3, 4] : List ℚ))].length : ℚ))) ∧
      s.time_sum = round5 ([1, 2, 3, 4] : List ℚ).sum ∧
      s.time_avg = round5 (s.time_sum / (([1, 2, 3, 4] : List ℚ).length : ℚ)) ∧
      (s.time_max ∈ ([1, 2, 3, 4] : List ℚ) ∧ ∀ x ∈ ([1, 2, 3, 4] : List ℚ), x ≤ s.time_max) ∧
      s.time_med = round5 (medianAlg [1, 2, 3, 4]) := by
  have h : count_url_stats [("u", [1, 2, 3, 4])] 10 =
      .ok [⟨"u", 4, 400, 10, 100, 5/2, 4, 5/2⟩] := by
    norm_num [count_url_stats, mapE, statFor, round5, roundHalfEvenZ, medianAlg, sortQ,
      List.insertionSort, List.orderedInsert, statGE, lastD]
  exact ⟨h, (count_url_stats_fields [("u", [1, 2, 3, 4])] 10
    [⟨"u", 4, 400, 10, 100, 5/2, 4, 5/2⟩] h).2 "u" [1, 2, 3, 4]
    (List.mem_singleton.mpr rfl)⟩

/-- Claim C4 (evaluation at a failing input): a line that does not match the
pattern does yield the unparsed marker, but a matching line whose quoted
segment holds fewer than three whitespace-separated tokens is not treated as
unparsed: the caught unpacking `ValueError` leaves the local `url` unbound and
the subsequent `yield LogLine(url, request_time)` raises `UnboundLocalError`,
crashing the generator on its first such line. -/
theorem parse_log_bad_split_crashes :
    parse_line none "no match here" = .ok (none, none) ∧
    searchLogFormat "a [b] \"GET\" 200 x 1.0" = some ("GET", "1.0") ∧
    parseLines none ["a [b] \"GET\" 200 x 1.0"] = .error .unboundLocal :=
  ⟨rfl, rfl, rfl⟩

/-- Claim C5 (evaluation at the failing input): on an empty stream the
post-loop ratio is `0.0 / 0.0`, so `count_url` raises `ZeroDivisionError`
instead of returning empty aggregates. -/
theorem count_url_empty_raises :
    count_url [] (1/5) = .error .zeroDivisionError :=
  rfl

/-- Claim C6 (evaluation at the failing input): with a nonempty map and
`total_requests_time = 0`, the unguarded division in `time_perc` makes
`count_url_stats` raise `ZeroDivisionError` instead of defining the
percentage as 0. -/
theorem count_url_stats_zero_total_raises :
    count_url_stats [("a", [0])] 0 = .error .zeroDivisionError :=
  rfl

/-- Claim C7 (evaluation at the failing input): a matching filename whose
8-digit date is not a calendar date (month 13) is not skipped with a warning:
`parsed_date` stays unbound after the caught `strptime` `ValueError`, and the
scan crashes with `UnboundLocalError` at `most_recent_date = parsed_date`. -/
theorem invalid_date_crashes_scan :
    filenameMatch "nginx-access-ui.log-20171301.log" = some ("20171301", "log") ∧
    strptimeYmd "20171301" = none ∧
    find_most_recent_log "./log" ["nginx-access-ui.log-20171301.log"] =
      .error .unboundLocal :=
  ⟨rfl, rfl, rfl⟩

/-- Claim C8: whenever `count_url` returns aggregates, the parsed and unparsed
counters sum to the number of lines consumed, the per-URL duration lists hold
exactly one entry per parsed line, and the returned total is the sum of all
recorded durations across all URLs. -/
theorem count_url_invariants (stream : List (Option LogLine)) (th : ℚ)
    (m : List (String × List ℚ)) (tot : ℚ)
    (h : count_url stream th = .ok (m, tot)) :
    parsedOf stream + unparsedOf stream = stream.length ∧
    sumLens m = parsedOf stream ∧
    tot = sumDur m := by
  obtain ⟨hm, htot⟩ := count_url_ok h
  subst hm
  subst htot
  refine ⟨parsedOf_add_unparsedOf stream, countAgg_sumLens stream, ?_⟩
  rw [countAgg_total, countAgg_sumDur]

/-- Claim C8, witnessed on a stream of two parsed lines for one URL and one
unparsed line. -/
theorem count_url_invariants_witness :
    parsedOf [some ⟨"/a", 2⟩, none, some ⟨"/a", 3⟩] +
      unparsedOf [some ⟨"/a", 2⟩, none, some ⟨"/a", 3⟩] =
      ([some ⟨"/a", 2⟩, none, some ⟨"/a", 3⟩] : List (Option LogLine)).length ∧
    sumLens [("/a", [2, 3])] = parsedOf [some ⟨"/a", 2⟩, none, some ⟨"/a", 3⟩] ∧
    (5 : ℚ) = sumDur [("/a", [2, 3])] :=
  count_url_invariants [some ⟨"/a", 2⟩, none, some ⟨"/a", 3⟩] (1/2) [("/a", [2, 3])] 5
    (by norm_num [count_url, countCheck, countAgg, countStep, addUrl])

/-- Claim C9: the list produced by `count_url_stats` is sorted by `time_sum`
in descending order — every record's `time_sum` is at least its successor's. -/
theorem count_url_stats_sorted (m : List (String × List ℚ)) (total : ℚ)
    (l : List LogStats) (h : count_url_stats m total = .ok l) :
    l.Chain' (fun a b => b.time_sum ≤ a.time_sum) := by
  cases hm : mapE (fun e => statFor m.length total e.1 e.2) m with
  | error e =>
    have h2 : count_url_stats m total = .error e := by
      unfold count_url_stats
      rw [hm]
    rw [h2] at h
    simp at h
  | ok stats =>
    have h2 : count_url_stats m total = .ok (stats.insertionSort statGE) := by
      unfold count_url_stats
      rw [hm]
    rw [h2, Except.ok.injEq] at h
    subst h
    exact List.Pairwise.chain' (List.sorted_insertionSort statGE stats)

/-- Claim C9, witnessed at the claim's instance: of two URLs with duration
sums 5.0 and 10.0, the 10.0-sum URL comes first, and adjacent records are in
descending `time_sum` order. -/
theorem count_url_stats_sorted_witness :
    count_url_stats [("a", [5]), ("b", [10])] 15 =
      .ok [⟨"b", 1, 50, 10, 6666667/100000, 10, 10, 10⟩,
           ⟨"a", 1, 50, 5, 3333333/100000, 5, 5, 5⟩] ∧
    List.Chain' (fun a b => b.time_sum ≤ a.time_sum)
      [(⟨"b", 1, 50, 10, 6666667/100000, 10, 10, 10⟩ : LogStats),
       ⟨"a", 1, 50, 5, 3333333/100000, 5, 5, 5⟩] := by
  have h : count_url_stats [("a", [5]), ("b", [10])] 15 =
      .ok [⟨"b", 1, 50, 10, 6666667/100000, 10, 10, 10⟩,
           ⟨"a", 1, 50, 5, 3333333/100000, 5, 5, 5⟩] := by
    norm_num [count_url_stats, mapE, statFor, round5, roundHalfEvenZ, medianAlg, sortQ,
      List.insertionSort, List.orderedInsert, statGE, lastD]
  exact ⟨h, count_url_stats_sorted [("a", [5]), ("b", [10])] 15 _ h⟩

/-- Claim C10 (evaluation at a failing input): `write_report` is not atomic
and performs no rename.  Writing the rendered text `"hello"`: after the fourth
operation (`open(report_path, 'wb')`) the destination exists on disk with
empty content, different from the rendered text — an observable truncated
state; no operation of the trace is a rename; and the final durable content of
the report is the empty string, because the text written through the buffered
temp handle was never flushed before `copyfileobj` read the temp file. -/
theorem write_report_not_atomic :
    fsGet (fsRun fsEmpty ((write_report_ops "hello" "report.html" "tmp1234").take 4)).disk
        "report.html" = some "" ∧
    fsGet (fsRun fsEmpty (write_report_ops "hello" "report.html" "tmp1234")).disk
        "report.html" = some "" ∧
    (write_report_ops "hello" "report.html" "tmp1234").all (fun op => !op.isMove) = true ∧
    "hello" ≠ "" :=
  ⟨rfl, rfl, rfl, by decide⟩
